import Mathlib

/-!
Verification of the express-service-proxy core: a shallow embedding of the
circuit breaker (lib/circuitBreaker.js), the load balancer (lib/loadBalancer.js)
and the service registry / request router / health aggregator (lib/proxy.js),
together with theorems settling the specified properties.

Modelling conventions:
* JS timestamps (Date.now()) are passed explicitly as natural numbers.
* Math.random-driven choices take an external natural-number oracle.
* A JS object used as a string-keyed map is an association list whose keys are
  kept unique by the update operations, mirroring object-key semantics.
* Thrown exceptions become Except results; a throw happens before any state
  mutation exactly where the source throws before mutating.
-/

set_option maxHeartbeats 1000000

/-- States of the circuit breaker: CLOSED, OPEN, HALF_OPEN. -/
inductive BreakerState where
  | CLOSED
  | OPEN
  | HALF_OPEN
deriving DecidableEq, Repr

/-- Circuit breaker record, mirroring the fields set up in the constructor of
class CircuitBreaker (lib/circuitBreaker.js). -/
structure CircuitBreaker where
  state : BreakerState
  failureCount : Nat
  successCount : Nat
  lastFailureTime : Option Nat
  failureThreshold : Nat
  resetTimeout : Nat
  halfOpenSuccessThreshold : Nat
  requestTimeout : Nat
deriving DecidableEq, Repr

/-- JS defaulting `x || d` on a numeric option field: an absent field and the
value 0 both fall back to the default. -/
def orDefault (o : Option Nat) (d : Nat) : Nat :=
  match o with
  | none => d
  | some v => if v = 0 then d else v

/-- Constructor of CircuitBreaker: state CLOSED, zero counters, null
lastFailureTime, thresholds defaulted with `||` (5, 30000, 3, 10000). -/
def CircuitBreaker.make (failureThreshold resetTimeout halfOpenSuccessThreshold requestTimeout :
    Option Nat) : CircuitBreaker :=
  { state := .CLOSED
    failureCount := 0
    successCount := 0
    lastFailureTime := none
    failureThreshold := orDefault failureThreshold 5
    resetTimeout := orDefault resetTimeout 30000
    halfOpenSuccessThreshold := orDefault halfOpenSuccessThreshold 3
    requestTimeout := orDefault requestTimeout 10000 }

/-- transitionToOpen: state := OPEN, successCount := 0. -/
def CircuitBreaker.transitionToOpen (cb : CircuitBreaker) : CircuitBreaker :=
  { cb with state := .OPEN, successCount := 0 }

/-- transitionToHalfOpen: state := HALF_OPEN, successCount := 0. -/
def CircuitBreaker.transitionToHalfOpen (cb : CircuitBreaker) : CircuitBreaker :=
  { cb with state := .HALF_OPEN, successCount := 0 }

/-- transitionToClosed: state := CLOSED, both counters := 0. -/
def CircuitBreaker.transitionToClosed (cb : CircuitBreaker) : CircuitBreaker :=
  { cb with state := .CLOSED, failureCount := 0, successCount := 0 }

/-- isOpen(): if state is OPEN and the reset timeout has elapsed since the last
failure, transition to HALF_OPEN first; then return whether the (possibly
updated) state is OPEN.  `Date.now()` is the explicit argument; the JS
`now - null` coercion of a null lastFailureTime is `getD 0`. -/
def CircuitBreaker.isOpen (cb : CircuitBreaker) (now : Nat) : Bool × CircuitBreaker :=
  let cb2 :=
    if cb.state = .OPEN ∧ now - cb.lastFailureTime.getD 0 > cb.resetTimeout
    then cb.transitionToHalfOpen
    else cb
  (decide (cb2.state = .OPEN), cb2)

/-- recordFailure(): stamp the failure time, bump failureCount, clear
successCount; open the circuit if CLOSED and the threshold is reached, or
unconditionally if HALF_OPEN. -/
def CircuitBreaker.recordFailure (cb : CircuitBreaker) (now : Nat) : CircuitBreaker :=
  let cb1 := { cb with lastFailureTime := some now
                       failureCount := cb.failureCount + 1
                       successCount := 0 }
  if cb1.state = .CLOSED ∧ cb1.failureCount ≥ cb1.failureThreshold then
    cb1.transitionToOpen
  else if cb1.state = .HALF_OPEN then
    cb1.transitionToOpen
  else cb1

/-- recordSuccess(): clear failureCount; while HALF_OPEN also count the success
and close the circuit once the half-open success threshold is reached. -/
def CircuitBreaker.recordSuccess (cb : CircuitBreaker) : CircuitBreaker :=
  let cb1 := { cb with failureCount := 0 }
  if cb1.state = .HALF_OPEN then
    let cb2 := { cb1 with successCount := cb1.successCount + 1 }
    if cb2.successCount ≥ cb2.halfOpenSuccessThreshold then cb2.transitionToClosed else cb2
  else cb1

/-- Diagnostic snapshot returned by getState(). -/
structure BreakerSnapshot where
  state : BreakerState
  failureCount : Nat
  successCount : Nat
  lastFailureTime : Option Nat
deriving DecidableEq, Repr

/-- getState(): read-only snapshot of state and counters. -/
def CircuitBreaker.getState (cb : CircuitBreaker) : BreakerSnapshot :=
  { state := cb.state
    failureCount := cb.failureCount
    successCount := cb.successCount
    lastFailureTime := cb.lastFailureTime }

/-- Fold of recordFailure over a list of timestamps: a sequence of recordFailure
calls with no intervening recordSuccess. -/
def CircuitBreaker.failSeq (cb : CircuitBreaker) (ts : List Nat) : CircuitBreaker :=
  ts.foldl (fun c t => c.recordFailure t) cb

/-- Iterated recordSuccess. -/
def CircuitBreaker.succSeq (cb : CircuitBreaker) : Nat → CircuitBreaker
  | 0 => cb
  | n + 1 => (cb.recordSuccess).succSeq n

/-- Load-balancing strategy tags of lib/loadBalancer.js; the switch default in
getNextTarget coincides with the round-robin case. -/
inductive Strategy where
  | roundRobin
  | random
  | leastConnections
deriving DecidableEq, Repr

/-- Lookup in the connection-count object (first matching key). -/
def lookupCount : List (String × Nat) → String → Option Nat
  | [], _ => none
  | p :: rest, k => if p.1 = k then some p.2 else lookupCount rest k

/-- JS object assignment `obj[k] = v`: update the existing key in place, else
append it. -/
def setCount : List (String × Nat) → String → Nat → List (String × Nat)
  | [], k, v => [(k, v)]
  | p :: rest, k, v => if p.1 = k then (k, v) :: rest else p :: setCount rest k v

/-- JS `delete obj[k]`. -/
def deleteCount (cc : List (String × Nat)) (k : String) : List (String × Nat) :=
  cc.filter (fun p => p.1 ≠ k)

/-- JS `obj[k]++`.  In the source an absent key would yield NaN; all reachable
states keep a counter entry for every key that is incremented, and in the
unreachable absent case the embedding appends the key with value 1. -/
def incrCount : List (String × Nat) → String → List (String × Nat)
  | [], k => [(k, 1)]
  | p :: rest, k => if p.1 = k then (k, p.2 + 1) :: rest else p :: incrCount rest k

/-- Key list of the connection-count object. -/
def countsKeys (cc : List (String × Nat)) : List String := cc.map Prod.fst

/-- JS `a < b` on possibly-undefined counters: any comparison involving
undefined is false. -/
def jsLt : Option Nat → Option Nat → Bool
  | some a, some b => decide (a < b)
  | _, _ => false

/-- Load balancer record of lib/loadBalancer.js. -/
structure LoadBalancer where
  targets : List String
  strategy : Strategy
  currentIndex : Nat
  connectionCounts : List (String × Nat)
deriving DecidableEq, Repr

/-- Constructor of LoadBalancer: copies the target list (`[...targets]`, the
identity on immutable lists), cursor 0, and a zero counter per target built by
reduce with object assignment. -/
def LoadBalancer.make (targets : List String) (strategy : Strategy) : LoadBalancer :=
  { targets := targets
    strategy := strategy
    currentIndex := 0
    connectionCounts := targets.foldl (fun acc t => setCount acc t 0) [] }

/-- getRoundRobinTarget(): return the target at the cursor, then advance the
cursor by one modulo the list length. -/
def LoadBalancer.getRoundRobinTarget (lb : LoadBalancer) : String × LoadBalancer :=
  (lb.targets.getD lb.currentIndex "",
   { lb with currentIndex := (lb.currentIndex + 1) % lb.targets.length })

/-- getRandomTarget(): Math.floor(Math.random() * length) is modelled by an
externally supplied oracle reduced modulo the length; no state changes. -/
def LoadBalancer.getRandomTarget (lb : LoadBalancer) (rnd : Nat) : String × LoadBalancer :=
  (lb.targets.getD (rnd % lb.targets.length) "", lb)

/-- getLeastConnectionsTarget(): reduce over the target list, keeping the
current element only when its counter is strictly below the accumulator
counter (so ties keep the earliest position), starting from targets[0]; then
increment the selected counter. -/
def LoadBalancer.getLeastConnectionsTarget (lb : LoadBalancer) : String × LoadBalancer :=
  let target := lb.targets.foldl
    (fun acc curr =>
      if jsLt (lookupCount lb.connectionCounts curr) (lookupCount lb.connectionCounts acc)
      then curr else acc)
    (lb.targets.headD "")
  (target, { lb with connectionCounts := incrCount lb.connectionCounts target })

/-- getNextTarget(): throw with no targets, bypass the strategies with exactly
one target, otherwise dispatch on the strategy (default round-robin). -/
def LoadBalancer.getNextTarget (lb : LoadBalancer) (rnd : Nat) :
    Except String (String × LoadBalancer) :=
  if lb.targets.length = 0 then
    .error "No targets available for load balancing"
  else if lb.targets.length = 1 then
    .ok (lb.targets.getD 0 "", lb)
  else
    match lb.strategy with
    | .random => .ok (lb.getRandomTarget rnd)
    | .leastConnections => .ok lb.getLeastConnectionsTarget
    | .roundRobin => .ok lb.getRoundRobinTarget

/-- releaseConnection(target): decrement the counter if it is above zero
(a comparison against an undefined counter is false, hence a no-op). -/
def LoadBalancer.releaseConnection (lb : LoadBalancer) (target : String) : LoadBalancer :=
  match lookupCount lb.connectionCounts target with
  | some c =>
      if c > 0 then
        { lb with connectionCounts := setCount lb.connectionCounts target (c - 1) }
      else lb
  | none => lb

/-- addTarget(target): no-op when already included, else push the target and
give it a zero counter. -/
def LoadBalancer.addTarget (lb : LoadBalancer) (target : String) : LoadBalancer :=
  if target ∈ lb.targets then lb
  else
    { lb with targets := lb.targets ++ [target]
              connectionCounts := setCount lb.connectionCounts target 0 }

/-- removeTarget(target): indexOf + splice removes the first occurrence (the
no-op when indexOf is -1 is the membership guard), deletes the counter key and
re-clamps the cursor to 0 when it falls at or beyond the new length. -/
def LoadBalancer.removeTarget (lb : LoadBalancer) (target : String) : LoadBalancer :=
  if target ∈ lb.targets then
    let targets2 := lb.targets.erase target
    { targets := targets2
      strategy := lb.strategy
      currentIndex := if lb.currentIndex ≥ targets2.length then 0 else lb.currentIndex
      connectionCounts := deleteCount lb.connectionCounts target }
  else lb

/-- getTargets(): snapshot copy of the target list. -/
def LoadBalancer.getTargets (lb : LoadBalancer) : List String := lb.targets

/-- Service-level options relevant to the core: the load-balancing strategy and
the circuitBreaker option block of registerService. -/
structure ServiceOptions where
  loadBalancingStrategy : Option Strategy
  cbFailureThreshold : Option Nat
  cbResetTimeout : Option Nat
  cbRequestTimeout : Option Nat
  cbHalfOpenSuccessThreshold : Option Nat
deriving DecidableEq, Repr

/-- Value stored in the services map by registerService: the registration
target list itself plus the freshly constructed load balancer and breaker. -/
structure ServiceEntry where
  targets : List String
  loadBalancer : LoadBalancer
  circuitBreaker : CircuitBreaker
deriving DecidableEq, Repr

/-- ServiceProxy holds the services Map (name to entry, unique keys). -/
structure ServiceProxy where
  services : List (String × ServiceEntry)
deriving DecidableEq, Repr

/-- JS Map.set: replace the value under an existing key, else append. -/
def setEntry : List (String × ServiceEntry) → String → ServiceEntry →
    List (String × ServiceEntry)
  | [], k, v => [(k, v)]
  | p :: rest, k, v => if p.1 = k then (k, v) :: rest else p :: setEntry rest k v

/-- registerService(name, targets, options): throw on an empty target list
before touching the registry; otherwise build a fresh LoadBalancer (strategy
defaulted to round-robin) and CircuitBreaker (the option merge with the 5 /
30000 / 10000 defaults composed with the constructor defaults reduces to the
`||` defaulting on each field, with halfOpenSuccessThreshold defaulted to 3 by
the constructor alone) and set the entry. -/
def ServiceProxy.registerService (p : ServiceProxy) (serviceName : String)
    (targets : List String) (opts : ServiceOptions) : Except String ServiceProxy :=
  if targets.isEmpty then
    .error "Targets must be a non-empty array of URLs"
  else
    let strat := opts.loadBalancingStrategy.getD .roundRobin
    let lb := LoadBalancer.make targets strat
    let cb := CircuitBreaker.make opts.cbFailureThreshold opts.cbResetTimeout
      opts.cbHalfOpenSuccessThreshold opts.cbRequestTimeout
    .ok { services := setEntry p.services serviceName ⟨targets, lb, cb⟩ }

/-- Outcome of the forwarded call as observed by the middleware hooks: either a
transport error (onError fires with the resolved target) or a response with a
status code (onProxyRes fires). -/
inductive Outcome where
  | transportError
  | response (statusCode : Nat)
deriving DecidableEq, Repr

/-- Router hook of the middleware returned by getServiceMiddleware: check the
breaker (its lazy transition persists on the service entry), throw 503 when
open, otherwise take the next target from the load balancer.  A none result
means the request failed before a target was resolved, so onError sees an
undefined target. -/
def routerStep (e : ServiceEntry) (now rnd : Nat) : Option String × ServiceEntry :=
  let res := e.circuitBreaker.isOpen now
  let e1 := { e with circuitBreaker := res.2 }
  if res.1 then (none, e1)
  else
    match e1.loadBalancer.getNextTarget rnd with
    | .error _ => (none, e1)
    | .ok (target, lb2) => (some target, { e1 with loadBalancer := lb2 })

/-- One full request life cycle through the middleware built by
getServiceMiddleware: router step, then the outcome hooks — onError records a
failure when a target was resolved; onProxyRes records a success below status
500 and a failure otherwise.  The middleware never invokes
LoadBalancer.releaseConnection anywhere. -/
def handleRequest (e : ServiceEntry) (now rnd now2 : Nat) (outcome : Outcome) :
    Option String × ServiceEntry :=
  match routerStep e now rnd with
  | (none, e1) => (none, e1)
  | (some target, e1) =>
    match outcome with
    | .transportError =>
        (some target, { e1 with circuitBreaker := e1.circuitBreaker.recordFailure now2 })
    | .response code =>
        if code < 500 then
          (some target, { e1 with circuitBreaker := e1.circuitBreaker.recordSuccess })
        else
          (some target, { e1 with circuitBreaker := e1.circuitBreaker.recordFailure now2 })

/-- Per-service block built by the health middleware: DOWN when isOpen() is
true (the lazy transition mutating the breaker first), the stored registration
target list, and the getState() snapshot taken after the isOpen call. -/
structure ServiceHealth where
  name : String
  status : String
  targets : List String
  circuitState : BreakerSnapshot
deriving DecidableEq, Repr

/-- Aggregate health report. -/
structure HealthReport where
  status : String
  services : List ServiceHealth
deriving DecidableEq, Repr

/-- Health block for one registered service. -/
def healthOfEntry (now : Nat) (pr : String × ServiceEntry) : ServiceHealth :=
  let res := pr.2.circuitBreaker.isOpen now
  { name := pr.1
    status := if res.1 then "DOWN" else "UP"
    targets := pr.2.targets
    circuitState := res.2.getState }

/-- getHealthMiddleware() handler: per-service blocks plus the overall status,
DEGRADED when some service is DOWN and UP otherwise; the breaker mutations of
the isOpen calls persist on the registry. -/
def ServiceProxy.getHealth (p : ServiceProxy) (now : Nat) : HealthReport × ServiceProxy :=
  let blocks := p.services.map (healthOfEntry now)
  ({ status := if blocks.any (fun s => s.status == "DOWN") then "DEGRADED" else "UP"
     services := blocks },
   { services := p.services.map
       (fun pr => (pr.1, { pr.2 with circuitBreaker := (pr.2.circuitBreaker.isOpen now).2 })) })

/-- Mutating operations on a load balancer that can occur between requests. -/
inductive LbOp where
  | add (target : String)
  | remove (target : String)
  | next (rnd : Nat)
deriving DecidableEq, Repr

/-- Apply one load-balancer operation (a failed getNextTarget leaves the state
unchanged, matching the throw before any mutation). -/
def applyOp (lb : LoadBalancer) : LbOp → LoadBalancer
  | .add t => lb.addTarget t
  | .remove t => lb.removeTarget t
  | .next rnd =>
    match lb.getNextTarget rnd with
    | .ok pr => pr.2
    | .error _ => lb

/-- Apply a sequence of load-balancer operations. -/
def applyOps (lb : LoadBalancer) (ops : List LbOp) : LoadBalancer :=
  ops.foldl applyOp lb

/-- Run k consecutive getNextTarget() calls, collecting the returned targets. -/
def rrRun : LoadBalancer → Nat → List String × LoadBalancer
  | lb, 0 => ([], lb)
  | lb, k + 1 =>
    match lb.getNextTarget 0 with
    | .error _ => ([], lb)
    | .ok (t, lb2) =>
      let rest := rrRun lb2 k
      (t :: rest.1, rest.2)

/-- Counter value of a target, as the comparisons read it (undefined is never
hit in well-formed states). -/
def cntOf (lb : LoadBalancer) (t : String) : Nat :=
  (lookupCount lb.connectionCounts t).getD 0

/-- Reference first-argmin fold over a pure count function. -/
def foldMin (c : String → Nat) (m : String) (ls : List String) : String :=
  ls.foldl (fun acc curr => if c curr < c acc then curr else acc) m

/-- Well-formedness invariant of a load balancer: duplicate-free targets, one
counter entry per current target and no others, and a cursor that is a valid
index whenever targets remain (0 once the list is empty). -/
def LbWellFormed (lb : LoadBalancer) : Prop :=
  lb.targets.Nodup ∧
  (countsKeys lb.connectionCounts).Nodup ∧
  (∀ t, t ∈ countsKeys lb.connectionCounts ↔ t ∈ lb.targets) ∧
  ((lb.targets = [] ∧ lb.currentIndex = 0) ∨ lb.currentIndex < lb.targets.length)

/-- Update the load balancer of the named service in place, as mutating the
object obtained from services.get(name) does. -/
def ServiceProxy.applyLbOpsAt (p : ServiceProxy) (serviceName : String)
    (ops : List LbOp) : ServiceProxy :=
  { services := p.services.map
      (fun pr => if pr.1 = serviceName
        then (pr.1, { pr.2 with loadBalancer := applyOps pr.2.loadBalancer ops })
        else pr) }

/-- Empty options record (all fields defaulted). -/
def optsNone : ServiceOptions := ⟨none, none, none, none, none⟩

/-- Placeholder health block used only as a getD default in witnesses. -/
def emptyHealth : ServiceHealth := ⟨"", "", [], ⟨.CLOSED, 0, 0, none⟩⟩

/-- Service entry with two idle targets under the least-connections strategy,
as registerService builds it. -/
def lcDemoEntry : ServiceEntry :=
  ⟨["a", "b"], LoadBalancer.make ["a", "b"] .leastConnections,
    CircuitBreaker.make none none none none⟩

/-- Service entry with a single target under round-robin, as registerService
builds it for the registration list ["a"]. -/
def regDemoEntry : ServiceEntry :=
  ⟨["a"], LoadBalancer.make ["a"] .roundRobin, CircuitBreaker.make none none none none⟩

/-- Registry holding regDemoEntry under the name svc. -/
def regDemoProxy : ServiceProxy := ⟨[("svc", regDemoEntry)]⟩

/-- Sample breaker in the OPEN state with resetTimeout 10 and a failure
recorded at time 5, for concrete instantiations. -/
def cbOpen5 : CircuitBreaker :=
  { CircuitBreaker.make (some 1) (some 10) none none with
      state := .OPEN, lastFailureTime := some 5 }

/-- Sample breaker in the HALF_OPEN state with halfOpenSuccessThreshold 2 and
one success already counted, for concrete instantiations. -/
def cbHalf : CircuitBreaker :=
  { CircuitBreaker.make none none (some 2) none with
      state := .HALF_OPEN, successCount := 1 }

/-- Registry with one healthy service and one service whose breaker is OPEN
inside its reset timeout, for concrete instantiations. -/
def healthDemoProxy : ServiceProxy :=
  ⟨[("up", ⟨["a"], LoadBalancer.make ["a"] .roundRobin, CircuitBreaker.make none none none none⟩),
    ("down", ⟨["b"], LoadBalancer.make ["b"] .roundRobin, cbOpen5⟩)]⟩

/-! ### Circuit-breaker lemmas -/

theorem recordFailure_closed_stay (cb : CircuitBreaker) (t : Nat)
    (hst : cb.state = .CLOSED) (hlt : cb.failureCount + 1 < cb.failureThreshold) :
    cb.recordFailure t =
      { cb with lastFailureTime := some t
                failureCount := cb.failureCount + 1
                successCount := 0 } := by
  simp only [CircuitBreaker.recordFailure]
  rw [if_neg (by simp [hst]; omega), if_neg (by simp [hst])]

theorem recordFailure_closed_open (cb : CircuitBreaker) (t : Nat)
    (hst : cb.state = .CLOSED) (hge : cb.failureThreshold ≤ cb.failureCount + 1) :
    (cb.recordFailure t).state = .OPEN := by
  simp only [CircuitBreaker.recordFailure]
  rw [if_pos (by simp [hst]; omega)]
  rfl

theorem recordFailure_open_stay (cb : CircuitBreaker) (t : Nat) (hst : cb.state = .OPEN) :
    (cb.recordFailure t).state = .OPEN ∧
    (cb.recordFailure t).failureThreshold = cb.failureThreshold := by
  simp only [CircuitBreaker.recordFailure]
  rw [if_neg (by simp [hst]), if_neg (by simp [hst])]
  exact ⟨hst, rfl⟩

theorem recordFailure_halfOpen (cb : CircuitBreaker) (t : Nat)
    (hst : cb.state = .HALF_OPEN) : (cb.recordFailure t).state = .OPEN := by
  simp only [CircuitBreaker.recordFailure]
  rw [if_neg (by simp [hst]), if_pos (by simp [hst])]
  rfl

theorem recordSuccess_closed (cb : CircuitBreaker) (hst : cb.state = .CLOSED) :
    cb.recordSuccess = { cb with failureCount := 0 } := by
  simp only [CircuitBreaker.recordSuccess]
  rw [if_neg (by simp [hst])]

theorem failSeq_cons (cb : CircuitBreaker) (t : Nat) (ts : List Nat) :
    cb.failSeq (t :: ts) = (cb.recordFailure t).failSeq ts := rfl

theorem failSeq_open (ts : List Nat) : ∀ cb : CircuitBreaker, cb.state = .OPEN →
    (cb.failSeq ts).state = .OPEN := by
  induction ts with
  | nil => intro cb h; exact h
  | cons t ts ih =>
    intro cb h
    rw [failSeq_cons]
    exact ih _ (recordFailure_open_stay cb t h).1

theorem failSeq_closed_progress (ts : List Nat) : ∀ cb : CircuitBreaker,
    cb.state = .CLOSED → cb.failureCount + ts.length < cb.failureThreshold →
    (cb.failSeq ts).state = .CLOSED ∧
    (cb.failSeq ts).failureCount = cb.failureCount + ts.length ∧
    (cb.failSeq ts).failureThreshold = cb.failureThreshold ∧
    (cb.failSeq ts).halfOpenSuccessThreshold = cb.halfOpenSuccessThreshold := by
  induction ts with
  | nil => intro cb h hlt; exact ⟨h, rfl, rfl, rfl⟩
  | cons t ts ih =>
    intro cb h hlt
    simp only [List.length_cons] at hlt
    rw [failSeq_cons, recordFailure_closed_stay cb t h (by omega)]
    obtain ⟨h1, h2, h3, h4⟩ := ih
      { cb with lastFailureTime := some t
                failureCount := cb.failureCount + 1
                successCount := 0 }
      (by simp [h]) (by simp; omega)
    refine ⟨h1, ?_, ?_, ?_⟩
    · simp only [h2]; simp; omega
    · simpa using h3
    · simpa using h4

/-- C3: from CLOSED with failureThreshold F (F at least 1) and a zero failure
counter, exactly F recordFailure calls open the circuit, fewer leave it CLOSED
with the counter equal to the number of calls, a recordSuccess after fewer
than F failures resets the counter to 0 while leaving the state CLOSED, and
F-1 failures followed by one success followed by F-1 further failures leave
the circuit CLOSED. -/
theorem breaker_failure_threshold (cb : CircuitBreaker) (F : Nat) (hF : 1 ≤ F)
    (hst : cb.state = .CLOSED) (hfc : cb.failureCount = 0)
    (hth : cb.failureThreshold = F) :
    (∀ ts : List Nat, ts.length = F → (cb.failSeq ts).state = .OPEN) ∧
    (∀ ts : List Nat, ts.length < F →
      (cb.failSeq ts).state = .CLOSED ∧ (cb.failSeq ts).failureCount = ts.length) ∧
    (∀ ts : List Nat, ts.length < F →
      ((cb.failSeq ts).recordSuccess).state = .CLOSED ∧
      ((cb.failSeq ts).recordSuccess).failureCount = 0) ∧
    (∀ ts1 ts2 : List Nat, ts1.length = F - 1 → ts2.length = F - 1 →
      (((cb.failSeq ts1).recordSuccess).failSeq ts2).state = .CLOSED) := by
  have hprog : ∀ ts : List Nat, ts.length < F →
      (cb.failSeq ts).state = .CLOSED ∧
      (cb.failSeq ts).failureCount = ts.length ∧
      (cb.failSeq ts).failureThreshold = F := by
    intro ts hlen
    obtain ⟨h1, h2, h3, _⟩ := failSeq_closed_progress ts cb hst (by omega)
    exact ⟨h1, by omega, by omega⟩
  refine ⟨?_, ?_, ?_, ?_⟩
  · intro ts hlen
    have hsplit : ts = ts.take (F - 1) ++ ts.drop (F - 1) := (List.take_append_drop _ _).symm
    have hlt : (ts.take (F - 1)).length = F - 1 := by
      rw [List.length_take]; omega
    have hld : (ts.drop (F - 1)).length = 1 := by
      rw [List.length_drop]; omega
    obtain ⟨t, hdrop⟩ := List.length_eq_one.mp hld
    obtain ⟨h1, h2, h3⟩ := hprog (ts.take (F - 1)) (by omega)
    rw [hsplit, CircuitBreaker.failSeq, List.foldl_append, hdrop]
    show ((cb.failSeq (ts.take (F - 1))).failSeq [t]).state = .OPEN
    rw [CircuitBreaker.failSeq]
    show ((cb.failSeq (ts.take (F - 1))).recordFailure t).state = .OPEN
    exact recordFailure_closed_open _ t h1 (by omega)
  · intro ts hlen
    obtain ⟨h1, h2, _⟩ := hprog ts hlen
    exact ⟨h1, h2⟩
  · intro ts hlen
    obtain ⟨h1, h2, _⟩ := hprog ts hlen
    rw [recordSuccess_closed _ h1]
    exact ⟨h1, rfl⟩
  · intro ts1 ts2 hl1 hl2
    obtain ⟨h1, h2, h3⟩ := hprog ts1 (by omega)
    rw [recordSuccess_closed _ h1]
    have hmid : ({ cb.failSeq ts1 with failureCount := 0 } : CircuitBreaker).state = .CLOSED := h1
    obtain ⟨h4, _, _, _⟩ := failSeq_closed_progress ts2 _ hmid (by simp [h3]; omega)
    exact h4

/-- Witness for breaker_failure_threshold at threshold 2. -/
theorem breaker_failure_threshold_witness :
    (((CircuitBreaker.make (some 2) none none none).failSeq [0, 1]).state = .OPEN) ∧
    ((((CircuitBreaker.make (some 2) none none none).failSeq [0]).recordSuccess).failSeq
        [2]).state = .CLOSED := by
  have h := breaker_failure_threshold (CircuitBreaker.make (some 2) none none none) 2
    (by decide) (by decide) (by decide) (by decide)
  exact ⟨h.1 [0, 1] (by decide), h.2.2.2 [0] [2] (by decide) (by decide)⟩

/-- C4: from OPEN, isOpen() returns true and leaves the state OPEN while the
time elapsed since the last failure does not exceed resetTimeout, and once it
exceeds resetTimeout the same call transitions to HALF_OPEN (clearing the
success counter) before returning false. -/
theorem breaker_isOpen_lazy (cb : CircuitBreaker) (t now : Nat)
    (hst : cb.state = .OPEN) (hlf : cb.lastFailureTime = some t) (ht : t ≤ now) :
    (now - t ≤ cb.resetTimeout → cb.isOpen now = (true, cb)) ∧
    (cb.resetTimeout < now - t →
      cb.isOpen now = (false, { cb with state := .HALF_OPEN, successCount := 0 })) := by
  constructor
  · intro hle
    simp only [CircuitBreaker.isOpen, hlf, Option.getD_some]
    rw [if_neg (by simp [hst]; omega)]
    simp [hst]
  · intro hgt
    simp only [CircuitBreaker.isOpen, hlf, Option.getD_some]
    rw [if_pos ⟨hst, by omega⟩]
    simp [CircuitBreaker.transitionToHalfOpen, hlf]

/-- Witness for breaker_isOpen_lazy within and past the reset timeout. -/
theorem breaker_isOpen_lazy_witness :
    (cbOpen5.isOpen 15 = (true, cbOpen5)) ∧
    (cbOpen5.isOpen 16 = (false, { cbOpen5 with state := .HALF_OPEN, successCount := 0 })) := by
  have h1 := breaker_isOpen_lazy cbOpen5 5 15 rfl rfl (by decide)
  have h2 := breaker_isOpen_lazy cbOpen5 5 16 rfl rfl (by decide)
  exact ⟨h1.1 (by decide), h2.2 (by decide)⟩

/-- C5: while HALF_OPEN, each recordSuccess increments the success counter,
and the call that reaches halfOpenSuccessThreshold transitions the breaker to
CLOSED with both counters zeroed; a single recordFailure while HALF_OPEN
transitions the breaker to OPEN regardless of the accumulated successes. -/
theorem breaker_half_open (cb : CircuitBreaker) (hst : cb.state = .HALF_OPEN) :
    (cb.successCount + 1 < cb.halfOpenSuccessThreshold →
      (cb.recordSuccess).state = .HALF_OPEN ∧
      (cb.recordSuccess).successCount = cb.successCount + 1 ∧
      (cb.recordSuccess).failureCount = 0) ∧
    (cb.halfOpenSuccessThreshold ≤ cb.successCount + 1 →
      (cb.recordSuccess).state = .CLOSED ∧
      (cb.recordSuccess).successCount = 0 ∧
      (cb.recordSuccess).failureCount = 0) ∧
    (∀ now, (cb.recordFailure now).state = .OPEN) := by
  refine ⟨?_, ?_, fun now => recordFailure_halfOpen cb now hst⟩
  · intro hlt
    simp only [CircuitBreaker.recordSuccess]
    rw [if_pos (by simp [hst]), if_neg (by simp; omega)]
    exact ⟨hst, by simp, by simp⟩
  · intro hge
    simp only [CircuitBreaker.recordSuccess]
    rw [if_pos (by simp [hst]), if_pos (by simp; omega)]
    exact ⟨rfl, rfl, rfl⟩

/-- Witness for breaker_half_open: one success short of the threshold closes
the circuit, and a failure while HALF_OPEN opens it. -/
theorem breaker_half_open_witness :
    ((cbHalf.recordSuccess).state = .CLOSED ∧ (cbHalf.recordSuccess).successCount = 0) ∧
    ((cbHalf.recordFailure 7).state = .OPEN) := by
  have h := breaker_half_open cbHalf rfl
  exact ⟨⟨(h.2.1 (by decide)).1, (h.2.1 (by decide)).2.1⟩, h.2.2 7⟩

/-! ### Registration and request-router theorems -/

/-- C1: the request handler built by getServiceMiddleware never invokes
releaseConnection — for a least-connections service with two idle targets, a
request selecting target a and then completing (success and transport failure
alike) leaves the counter of a at 1 instead of returning it to its
pre-selection value 0. -/
theorem least_connections_counter_never_released :
    (handleRequest lcDemoEntry 0 0 1 (.response 200)).1 = some "a" ∧
    lookupCount
      ((handleRequest lcDemoEntry 0 0 1 (.response 200)).2.loadBalancer.connectionCounts)
      "a" = some 1 ∧
    lookupCount
      ((handleRequest lcDemoEntry 0 0 1 .transportError).2.loadBalancer.connectionCounts)
      "a" = some 1 ∧
    lookupCount lcDemoEntry.loadBalancer.connectionCounts "a" = some 0 := by
  decide

/-- C2 counterexample: registering a service whose target list contains a
duplicate address succeeds instead of being rejected. -/
theorem registerService_accepts_duplicates :
    (ServiceProxy.registerService ⟨[]⟩ "svc" ["a", "a"] optsNone).isOk = true := by
  decide

/-- C2 (amended): registerService throws exactly when the target list is
empty, and the throw precedes any registry mutation so a rejected
registration leaves the registry unchanged; duplicate target addresses are
not rejected. -/
theorem registerService_rejects_iff_empty (p : ServiceProxy) (serviceName : String)
    (targets : List String) (opts : ServiceOptions) :
    ((p.registerService serviceName targets opts).isOk = false ↔ targets = []) ∧
    (∀ msg, p.registerService serviceName targets opts = .error msg → targets = []) := by
  cases targets with
  | nil => simp [ServiceProxy.registerService, Except.isOk, Except.toBool]
  | cons a as => simp [ServiceProxy.registerService, Except.isOk, Except.toBool]

/-- Witness for registerService_rejects_iff_empty: an empty list is rejected
and a singleton list is accepted. -/
theorem registerService_rejects_iff_empty_witness :
    (ServiceProxy.registerService ⟨[]⟩ "svc" [] optsNone).isOk = false ∧
    (ServiceProxy.registerService ⟨[]⟩ "svc" ["a"] optsNone).isOk = true := by
  have h1 := (registerService_rejects_iff_empty ⟨[]⟩ "svc" [] optsNone).1
  have h2 := (registerService_rejects_iff_empty ⟨[]⟩ "svc" ["a"] optsNone).1
  refine ⟨h1.mpr rfl, ?_⟩
  cases hb : (ServiceProxy.registerService ⟨[]⟩ "svc" ["a"] optsNone).isOk with
  | true => rfl
  | false => exact absurd (h2.mp hb) (by simp)

/-! ### Health-aggregation theorems -/

/-- C9: the health middleware reports a registered service DOWN exactly when
its breaker isOpen() returns true and UP otherwise, alongside the stored
target list and the post-isOpen getState() snapshot, and the overall status is
DEGRADED exactly when at least one service is DOWN and UP otherwise. -/
theorem health_reports (p : ServiceProxy) (now : Nat) :
    ((p.getHealth now).1.services.length = p.services.length) ∧
    (∀ i (hi : i < p.services.length) (hi2 : i < (p.getHealth now).1.services.length),
      ((p.getHealth now).1.services.get ⟨i, hi2⟩).name = (p.services.get ⟨i, hi⟩).1 ∧
      (((p.getHealth now).1.services.get ⟨i, hi2⟩).status = "DOWN" ↔
        ((p.services.get ⟨i, hi⟩).2.circuitBreaker.isOpen now).1 = true) ∧
      (((p.getHealth now).1.services.get ⟨i, hi2⟩).status = "DOWN" ∨
        ((p.getHealth now).1.services.get ⟨i, hi2⟩).status = "UP") ∧
      ((p.getHealth now).1.services.get ⟨i, hi2⟩).targets =
        (p.services.get ⟨i, hi⟩).2.targets ∧
      ((p.getHealth now).1.services.get ⟨i, hi2⟩).circuitState =
        (((p.services.get ⟨i, hi⟩).2.circuitBreaker.isOpen now).2).getState) ∧
    ((p.getHealth now).1.status = "DEGRADED" ↔
      ∃ s ∈ (p.getHealth now).1.services, s.status = "DOWN") ∧
    ((p.getHealth now).1.status = "DEGRADED" ∨ (p.getHealth now).1.status = "UP") := by
  have hl : (p.getHealth now).1.services = p.services.map (healthOfEntry now) := rfl
  refine ⟨by rw [hl]; exact List.length_map _ _, ?_, ?_, ?_⟩
  · intro i hi hi2
    have hget : (p.getHealth now).1.services.get ⟨i, hi2⟩ =
        healthOfEntry now (p.services.get ⟨i, hi⟩) := by
      simp [hl]
    rw [hget]
    refine ⟨rfl, ?_, ?_, rfl, rfl⟩
    · by_cases hb : ((p.services.get ⟨i, hi⟩).2.circuitBreaker.isOpen now).1 = true
      · simp [healthOfEntry, hb]
      · simp [healthOfEntry, hb]
    · by_cases hb : ((p.services.get ⟨i, hi⟩).2.circuitBreaker.isOpen now).1 = true
      · left
        simp [healthOfEntry, hb]
        exact hb
      · right
        simp [healthOfEntry, hb]
        simpa using hb
  · have hst : (p.getHealth now).1.status =
        if (p.services.map (healthOfEntry now)).any (fun s => s.status == "DOWN")
        then "DEGRADED" else "UP" := rfl
    rw [hst, hl]
    by_cases hb : (p.services.map (healthOfEntry now)).any (fun s => s.status == "DOWN") = true
    · rw [if_pos hb]
      simp only [List.any_eq_true, beq_iff_eq] at hb
      simpa using hb
    · rw [if_neg hb]
      simp only [List.any_eq_true, beq_iff_eq] at hb
      push_neg at hb
      constructor
      · intro h; exact absurd h (by simp)
      · intro h; obtain ⟨s, hs, hds⟩ := h; exact absurd hds (hb s hs)
  · have hst : (p.getHealth now).1.status =
        if (p.services.map (healthOfEntry now)).any (fun s => s.status == "DOWN")
        then "DEGRADED" else "UP" := rfl
    rw [hst]
    by_cases hb : (p.services.map (healthOfEntry now)).any (fun s => s.status == "DOWN") = true
    · left; rw [if_pos hb]
    · right; rw [if_neg hb]

/-- Witness for health_reports on a two-service registry with one OPEN
breaker. -/
theorem health_reports_witness :
    (healthDemoProxy.getHealth 6).1.services.length = 2 ∧
    ((healthDemoProxy.getHealth 6).1.status = "DEGRADED" ∨
      (healthDemoProxy.getHealth 6).1.status = "UP") := by
  have h := health_reports healthDemoProxy 6
  exact ⟨h.1.trans (by decide), h.2.2.2⟩

/-- Map.set leaves exactly one entry under a key: with unique keys, any entry
of setEntry m k v whose key is k carries the value v. -/
theorem setEntry_unique (m : List (String × ServiceEntry)) (k : String) (v : ServiceEntry)
    (hnd : (m.map Prod.fst).Nodup) :
    ∀ pr ∈ setEntry m k v, pr.1 = k → pr = (k, v) := by
  induction m with
  | nil =>
    intro pr hpr _
    simpa [setEntry] using hpr
  | cons p rest ih =>
    intro pr hpr hk
    simp only [List.map_cons, List.nodup_cons] at hnd
    by_cases hp : p.1 = k
    · rw [setEntry, if_pos hp] at hpr
      rcases List.mem_cons.mp hpr with h | h
      · exact h
      · have hm : pr.1 ∈ rest.map Prod.fst := List.mem_map_of_mem Prod.fst h
        rw [hk, ← hp] at hm
        exact absurd hm hnd.1
    · rw [setEntry, if_neg hp] at hpr
      rcases List.mem_cons.mp hpr with h | h
      · exact absurd (h ▸ hk) hp
      · exact ih hnd.2 pr h hk

/-- C10: the target list the health middleware reports for a registered
service is the one supplied at registration: the load balancer was
constructed on a copy, so any later addTarget / removeTarget / getNextTarget
activity on the service's load balancer changes where requests route but
never the reported targets. -/
theorem health_targets_frozen (p : ServiceProxy) (serviceName : String)
    (targets : List String) (opts : ServiceOptions) (p2 : ServiceProxy)
    (hnd : (p.services.map Prod.fst).Nodup)
    (hreg : p.registerService serviceName targets opts = .ok p2)
    (ops : List LbOp) (now : Nat) :
    ∀ s ∈ ((p2.applyLbOpsAt serviceName ops).getHealth now).1.services,
      s.name = serviceName → s.targets = targets := by
  cases hemp : targets.isEmpty with
  | true =>
    exfalso
    simp [ServiceProxy.registerService, hemp] at hreg
  | false =>
    simp only [ServiceProxy.registerService, hemp, Bool.false_eq_true, if_false,
      Except.ok.injEq] at hreg
    intro s hs hname
    have hs2 : s ∈ ((p2.applyLbOpsAt serviceName ops).services).map (healthOfEntry now) := hs
    obtain ⟨q, hq, hsq⟩ := List.mem_map.mp hs2
    simp only [ServiceProxy.applyLbOpsAt] at hq
    obtain ⟨pr, hpr, hqpr⟩ := List.mem_map.mp hq
    have hq1 : q.1 = pr.1 ∧ q.2.targets = pr.2.targets := by
      by_cases hc : pr.1 = serviceName
      · rw [← hqpr]; simp [hc]
      · rw [← hqpr]; simp [hc]
    have hsname : s.name = q.1 := by rw [← hsq]; rfl
    have hstgt : s.targets = q.2.targets := by rw [← hsq]; rfl
    have hprk : pr.1 = serviceName := by rw [← hq1.1, ← hsname]; exact hname
    have hprm : pr ∈ setEntry p.services serviceName
        ⟨targets,
          LoadBalancer.make targets (opts.loadBalancingStrategy.getD .roundRobin),
          CircuitBreaker.make opts.cbFailureThreshold opts.cbResetTimeout
            opts.cbHalfOpenSuccessThreshold opts.cbRequestTimeout⟩ := by
      rw [← hreg] at hpr
      exact hpr
    have := setEntry_unique p.services serviceName _ hnd pr hprm hprk
    rw [hstgt, hq1.2, this]

/-- Witness for health_targets_frozen: after adding a target to the load
balancer of the registered service, the health report still lists the
registration list. -/
theorem health_targets_frozen_witness :
    (((regDemoProxy.applyLbOpsAt "svc" [LbOp.add "b"]).getHealth 0).1.services.headD
      emptyHealth).targets = ["a"] := by
  have h := health_targets_frozen ⟨[]⟩ "svc" ["a"] optsNone regDemoProxy (by decide) rfl
    [LbOp.add "b"] 0
  exact h _ (by decide) (by decide)

/-! ### Round-robin theorems -/

/-- Two load balancers differing only in an equal cursor are equal. -/
theorem lb_eta (lb : LoadBalancer) (x : Nat) (h : x = lb.currentIndex) :
    ({ lb with currentIndex := x } : LoadBalancer) = lb := by
  cases lb
  subst h
  rfl

/-- One getNextTarget() call under round-robin with a valid cursor returns the
target at the cursor and advances the cursor by one modulo the length (the
single-target shortcut returns the lone target leaving the cursor at 0, which
coincides with advancing modulo 1). -/
theorem rr_step (lb : LoadBalancer) (h1 : lb.strategy = .roundRobin)
    (h2 : lb.currentIndex < lb.targets.length) :
    lb.getNextTarget 0 = .ok (lb.targets.getD lb.currentIndex "",
      { lb with currentIndex := (lb.currentIndex + 1) % lb.targets.length }) := by
  have hne : lb.targets.length ≠ 0 := by omega
  by_cases hone : lb.targets.length = 1
  · have hz : lb.currentIndex = 0 := by omega
    have heq : (lb.currentIndex + 1) % lb.targets.length = lb.currentIndex := by
      rw [hz, hone]
    simp only [LoadBalancer.getNextTarget]
    rw [if_neg hne, if_pos hone, lb_eta lb _ heq, hz]
  · simp only [LoadBalancer.getNextTarget]
    rw [if_neg hne, if_neg hone]
    simp only [h1, LoadBalancer.getRoundRobinTarget]

/-- Characterization of k consecutive round-robin calls: outputs follow the
cyclic stream of targets starting at the cursor, and only the cursor changes,
advancing by one per call modulo the length. -/
theorem rrRun_spec (k : Nat) : ∀ lb : LoadBalancer, lb.strategy = .roundRobin →
    lb.currentIndex < lb.targets.length →
    (rrRun lb k).1 = (List.range k).map
      (fun j => lb.targets.getD ((lb.currentIndex + j) % lb.targets.length) "") ∧
    (rrRun lb k).2 = { lb with currentIndex := (lb.currentIndex + k) % lb.targets.length } := by
  induction k with
  | zero =>
    intro lb h1 h2
    refine ⟨by simp [rrRun], ?_⟩
    show lb = { lb with currentIndex := (lb.currentIndex + 0) % lb.targets.length }
    exact (lb_eta lb _ (by simp [Nat.mod_eq_of_lt h2])).symm
  | succ k ih =>
    intro lb h1 h2
    have hpos : 0 < lb.targets.length := by omega
    have hstep := rr_step lb h1 h2
    have hrun : rrRun lb (k + 1) =
        (lb.targets.getD lb.currentIndex "" ::
          (rrRun { lb with currentIndex := (lb.currentIndex + 1) % lb.targets.length } k).1,
         (rrRun { lb with currentIndex := (lb.currentIndex + 1) % lb.targets.length } k).2) := by
      rw [rrRun, hstep]
    obtain ⟨ih1, ih2⟩ := ih
      { lb with currentIndex := (lb.currentIndex + 1) % lb.targets.length }
      h1 (by simpa using Nat.mod_lt _ hpos)
    constructor
    · rw [hrun]
      simp only [ih1]
      rw [List.range_succ_eq_map]
      simp only [List.map_cons, List.map_map]
      refine congrArg₂ List.cons ?_ ?_
      · rw [Nat.add_zero, Nat.mod_eq_of_lt h2]
      · apply List.map_congr_left
        intro j _
        simp only [Function.comp]
        rw [Nat.mod_add_mod]
        congr 2
        omega
    · rw [hrun]
      simp only [ih2]
      have harith : ((lb.currentIndex + 1) % lb.targets.length + k) % lb.targets.length =
          (lb.currentIndex + (k + 1)) % lb.targets.length := by
        rw [Nat.mod_add_mod]
        congr 1
        omega
      show ({ lb with currentIndex :=
          ((lb.currentIndex + 1) % lb.targets.length + k) % lb.targets.length } :
          LoadBalancer) =
        { lb with currentIndex := (lb.currentIndex + (k + 1)) % lb.targets.length }
      rw [harith]

/-- C6: with round-robin and a valid cursor, the N consecutive getNextTarget()
calls (N the number of targets) return exactly the target list rotated to
start at the cursor — each target exactly once, in list order — and every call
advances the cursor by one modulo N, leaving the target list unchanged. -/
theorem round_robin_cycle (lb : LoadBalancer) (h1 : lb.strategy = .roundRobin)
    (h2 : lb.currentIndex < lb.targets.length) :
    (rrRun lb lb.targets.length).1 =
      lb.targets.drop lb.currentIndex ++ lb.targets.take lb.currentIndex ∧
    (rrRun lb lb.targets.length).1.Perm lb.targets ∧
    (∀ k, ((rrRun lb k).2).currentIndex = (lb.currentIndex + k) % lb.targets.length ∧
      ((rrRun lb k).2).targets = lb.targets) := by
  have hrot : (rrRun lb lb.targets.length).1 = lb.targets.rotate lb.currentIndex := by
    rw [(rrRun_spec lb.targets.length lb h1 h2).1]
    have hlen : ((List.range lb.targets.length).map
        (fun j => lb.targets.getD ((lb.currentIndex + j) % lb.targets.length) "")).length =
        (lb.targets.rotate lb.currentIndex).length := by
      simp [List.length_rotate]
    refine List.ext_get hlen ?_
    intro n hn1 hn2
    have hnlt : n < lb.targets.length := by
      simpa using hn1
    have hmod : (lb.currentIndex + n) % lb.targets.length < lb.targets.length :=
      Nat.mod_lt _ (by omega)
    rw [List.get_map]
    rw [List.get_rotate]
    simp only [List.get_eq_getElem, List.getElem_range]
    rw [List.getD_eq_getElem?_getD, List.getElem?_eq_getElem hmod]
    simp only [Option.getD_some]
    congr 1
    rw [Nat.add_comm]
  refine ⟨?_, ?_, ?_⟩
  · rw [hrot, List.rotate_eq_drop_append_take (Nat.le_of_lt h2)]
  · rw [hrot]; exact List.rotate_perm lb.targets lb.currentIndex
  · intro k
    rw [(rrRun_spec k lb h1 h2).2]
    exact ⟨rfl, rfl⟩

/-- Witness for round_robin_cycle on three targets. -/
theorem round_robin_cycle_witness :
    (rrRun (LoadBalancer.make ["a", "b", "c"] .roundRobin) 3).1 = ["a", "b", "c"] := by
  have h := round_robin_cycle (LoadBalancer.make ["a", "b", "c"] .roundRobin) rfl (by decide)
  simpa using h.1

/-! ### Least-connections theorems -/

/-- Head with default of a nonempty list is a member. -/
theorem headD_mem_of_ne_nil (l : List String) (h : l ≠ []) : l.headD "" ∈ l := by
  cases l with
  | nil => exact absurd rfl h
  | cons x xs => exact List.mem_cons_self x xs

/-- An in-range getD is a member. -/
theorem getD_mem_of_lt (l : List String) (j : Nat) (h : j < l.length) :
    l.getD j "" ∈ l := by
  rw [List.getD_eq_getElem?_getD, List.getElem?_eq_getElem h]
  simp only [Option.getD_some]
  exact List.getElem_mem h

/-- The strict-improvement fold keeps the first position attaining the minimal
count: either no element beats the accumulator and it is returned, or the
result is the earliest minimal element of the list, strictly below the
accumulator and all earlier positions. -/
theorem foldMin_spec (c : String → Nat) : ∀ (ls : List String) (m : String),
    (foldMin c m ls = m ∧ ∀ x ∈ ls, c m ≤ c x) ∨
    (∃ i, i < ls.length ∧ foldMin c m ls = ls.getD i "" ∧
      c (foldMin c m ls) < c m ∧
      (∀ x ∈ ls, c (foldMin c m ls) ≤ c x) ∧
      (∀ j, j < i → c (foldMin c m ls) < c (ls.getD j ""))) := by
  intro ls
  induction ls with
  | nil => intro m; left; exact ⟨rfl, by simp⟩
  | cons x xs ih =>
    intro m
    have hcons : foldMin c m (x :: xs) = foldMin c (if c x < c m then x else m) xs := rfl
    by_cases hx : c x < c m
    · rw [if_pos hx] at hcons
      rcases ih x with ⟨h1, h2⟩ | ⟨i, hi, h1, h2, h3, h4⟩
      · right
        refine ⟨0, by simp, ?_, ?_, ?_, ?_⟩
        · rw [hcons, h1, List.getD_cons_zero]
        · rw [hcons, h1]; exact hx
        · intro y hy
          rw [hcons, h1]
          rcases List.mem_cons.mp hy with h | h
          · rw [h]
          · exact h2 y h
        · intro j hj
          exact absurd hj (by omega)
      · right
        refine ⟨i + 1, by simpa using hi, ?_, ?_, ?_, ?_⟩
        · rw [hcons, List.getD_cons_succ]; exact h1
        · rw [hcons]; exact lt_trans h2 hx
        · intro y hy
          rw [hcons]
          rcases List.mem_cons.mp hy with h | h
          · rw [h]; exact le_of_lt h2
          · exact h3 y h
        · intro j hj
          rw [hcons]
          cases j with
          | zero => rw [List.getD_cons_zero]; exact h2
          | succ j2 => rw [List.getD_cons_succ]; exact h4 j2 (by omega)
    · rw [if_neg hx] at hcons
      have hnot : c m ≤ c x := Nat.le_of_not_lt hx
      rcases ih m with ⟨h1, h2⟩ | ⟨i, hi, h1, h2, h3, h4⟩
      · left
        refine ⟨by rw [hcons]; exact h1, ?_⟩
        intro y hy
        rcases List.mem_cons.mp hy with h | h
        · rw [h]; exact hnot
        · exact h2 y h
      · right
        refine ⟨i + 1, by simpa using hi, ?_, ?_, ?_, ?_⟩
        · rw [hcons, List.getD_cons_succ]; exact h1
        · rw [hcons]; exact h2
        · intro y hy
          rw [hcons]
          rcases List.mem_cons.mp hy with h | h
          · rw [h]; exact le_of_lt (lt_of_lt_of_le h2 hnot)
          · exact h3 y h
        · intro j hj
          rw [hcons]
          cases j with
          | zero => rw [List.getD_cons_zero]; exact lt_of_lt_of_le h2 hnot
          | succ j2 => rw [List.getD_cons_succ]; exact h4 j2 (by omega)

/-- On counts whose keys cover the folded elements, the jsLt fold of
getLeastConnectionsTarget agrees with the pure first-argmin fold. -/
theorem fold_jsLt_eq_foldMin (cc : List (String × Nat)) :
    ∀ (ls : List String) (m : String),
    (lookupCount cc m).isSome = true →
    (∀ x ∈ ls, (lookupCount cc x).isSome = true) →
    ls.foldl (fun acc curr =>
      if jsLt (lookupCount cc curr) (lookupCount cc acc) then curr else acc) m =
      foldMin (fun t => (lookupCount cc t).getD 0) m ls := by
  intro ls
  induction ls with
  | nil => intro m _ _; rfl
  | cons x xs ih =>
    intro m hm hxs
    have hx : (lookupCount cc x).isSome = true := hxs x (List.mem_cons_self x xs)
    obtain ⟨a, ha⟩ := Option.isSome_iff_exists.mp hx
    obtain ⟨b, hb⟩ := Option.isSome_iff_exists.mp hm
    have hstep : (if jsLt (lookupCount cc x) (lookupCount cc m) then x else m) =
        (if (lookupCount cc x).getD 0 < (lookupCount cc m).getD 0 then x else m) := by
      rw [ha, hb]
      simp [jsLt]
    have hfm : foldMin (fun t => (lookupCount cc t).getD 0) m (x :: xs) =
        foldMin (fun t => (lookupCount cc t).getD 0)
          (if (lookupCount cc x).getD 0 < (lookupCount cc m).getD 0 then x else m) xs := rfl
    rw [List.foldl_cons, hstep, hfm]
    by_cases hc : (lookupCount cc x).getD 0 < (lookupCount cc m).getD 0
    · rw [if_pos hc]
      exact ih x hx (fun y hy => hxs y (List.mem_cons_of_mem x hy))
    · rw [if_neg hc]
      exact ih m hm (fun y hy => hxs y (List.mem_cons_of_mem x hy))

/-- Incrementing a present key raises its looked-up value by one. -/
theorem lookup_incrCount_self (cc : List (String × Nat)) (t : String) (v : Nat)
    (h : lookupCount cc t = some v) :
    lookupCount (incrCount cc t) t = some (v + 1) := by
  induction cc with
  | nil => simp [lookupCount] at h
  | cons p rest ih =>
    by_cases hp : p.1 = t
    · rw [lookupCount, if_pos hp] at h
      rw [incrCount, if_pos hp, lookupCount, if_pos rfl]
      rw [Option.some.injEq] at h
      rw [h]
    · rw [lookupCount, if_neg hp] at h
      rw [incrCount, if_neg hp, lookupCount, if_neg hp]
      exact ih h

/-- Incrementing one key leaves every other lookup unchanged. -/
theorem lookup_incrCount_other (cc : List (String × Nat)) (t s : String) (h : s ≠ t) :
    lookupCount (incrCount cc t) s = lookupCount cc s := by
  induction cc with
  | nil => simp [incrCount, lookupCount, Ne.symm h]
  | cons p rest ih =>
    by_cases hp : p.1 = t
    · simp [incrCount, hp, lookupCount, Ne.symm h]
    · simp [incrCount, hp, lookupCount, ih]

/-- C7: under least-connections with at least two targets, getNextTarget()
returns the target at the earliest position holding the minimal connection
counter — ties broken by the earliest position in the list — and increments
exactly that target's counter as part of the selection itself, leaving the
target list and the cursor unchanged. -/
theorem least_connections_selects_min (lb : LoadBalancer) (rnd : Nat)
    (h1 : lb.strategy = .leastConnections) (h2 : 2 ≤ lb.targets.length)
    (hkeys : ∀ t ∈ lb.targets, (lookupCount lb.connectionCounts t).isSome = true) :
    ∃ (t : String) (i : Nat),
      i < lb.targets.length ∧ t = lb.targets.getD i "" ∧
      lb.getNextTarget rnd = .ok (t,
        { lb with connectionCounts := incrCount lb.connectionCounts t }) ∧
      (∀ j, j < lb.targets.length → cntOf lb t ≤ cntOf lb (lb.targets.getD j "")) ∧
      (∀ j, j < i → cntOf lb t < cntOf lb (lb.targets.getD j "")) ∧
      lookupCount (incrCount lb.connectionCounts t) t = some (cntOf lb t + 1) ∧
      (∀ s, s ≠ t → lookupCount (incrCount lb.connectionCounts t) s =
        lookupCount lb.connectionCounts s) := by
  have hne : lb.targets.length ≠ 0 := by omega
  have hone : lb.targets.length ≠ 1 := by omega
  have hnil : lb.targets ≠ [] := by
    intro hh
    rw [hh] at hne
    exact hne rfl
  have hhead := headD_mem_of_ne_nil lb.targets hnil
  have hsel : lb.getNextTarget rnd = .ok lb.getLeastConnectionsTarget := by
    simp only [LoadBalancer.getNextTarget]
    rw [if_neg hne, if_neg hone, h1]
  set c : String → Nat := fun t => (lookupCount lb.connectionCounts t).getD 0 with hc
  have hfold : lb.getLeastConnectionsTarget =
      (foldMin c (lb.targets.headD "") lb.targets,
        { lb with connectionCounts :=
            incrCount lb.connectionCounts (foldMin c (lb.targets.headD "") lb.targets) }) := by
    simp only [LoadBalancer.getLeastConnectionsTarget]
    rw [fold_jsLt_eq_foldMin lb.connectionCounts lb.targets (lb.targets.headD "")
      (hkeys _ hhead) (fun y hy => hkeys y hy)]
  set t0 : String := foldMin c (lb.targets.headD "") lb.targets with ht0
  have hmin := foldMin_spec c lb.targets (lb.targets.headD "")
  have hmain : ∃ i, i < lb.targets.length ∧ t0 = lb.targets.getD i "" ∧
      (∀ j, j < lb.targets.length → c t0 ≤ c (lb.targets.getD j "")) ∧
      (∀ j, j < i → c t0 < c (lb.targets.getD j "")) := by
    rcases hmin with ⟨hm1, hm2⟩ | ⟨i, hi, hm1, _, hm3, hm4⟩
    · refine ⟨0, by omega, ?_, ?_, ?_⟩
      · rw [ht0, hm1]
        cases hl : lb.targets with
        | nil => exact absurd hl hnil
        | cons x xs => rfl
      · intro j hj
        rw [ht0, hm1]
        exact hm2 _ (getD_mem_of_lt _ j hj)
      · intro j hj
        exact absurd hj (by omega)
    · refine ⟨i, hi, by rw [ht0]; exact hm1, ?_, fun j hj => hm4 j hj⟩
      intro j hj
      exact hm3 _ (getD_mem_of_lt _ j hj)
  obtain ⟨i, hi, hti, hmin2, htie⟩ := hmain
  have htmem : t0 ∈ lb.targets := by
    rw [hti]
    exact getD_mem_of_lt _ i hi
  obtain ⟨v, hv⟩ := Option.isSome_iff_exists.mp (hkeys t0 htmem)
  have hcnt : cntOf lb t0 = v := by
    rw [cntOf, hv]
    rfl
  refine ⟨t0, i, hi, hti, ?_, hmin2, htie, ?_, ?_⟩
  · rw [hsel, hfold]
  · rw [hcnt]
    exact lookup_incrCount_self lb.connectionCounts t0 v hv
  · intro s hs
    exact lookup_incrCount_other lb.connectionCounts t0 s hs

/-- Witness for least_connections_selects_min on two idle targets. -/
theorem least_connections_selects_min_witness :
    ∃ (t : String) (i : Nat),
      i < (LoadBalancer.make ["a", "b"] .leastConnections).targets.length ∧
      t = (LoadBalancer.make ["a", "b"] .leastConnections).targets.getD i "" ∧
      (LoadBalancer.make ["a", "b"] .leastConnections).getNextTarget 0 = .ok (t,
        { LoadBalancer.make ["a", "b"] .leastConnections with
            connectionCounts :=
              incrCount (LoadBalancer.make ["a", "b"] .leastConnections).connectionCounts t }) ∧
      (∀ j, j < (LoadBalancer.make ["a", "b"] .leastConnections).targets.length →
        cntOf (LoadBalancer.make ["a", "b"] .leastConnections) t ≤
          cntOf (LoadBalancer.make ["a", "b"] .leastConnections)
            ((LoadBalancer.make ["a", "b"] .leastConnections).targets.getD j "")) ∧
      (∀ j, j < i →
        cntOf (LoadBalancer.make ["a", "b"] .leastConnections) t <
          cntOf (LoadBalancer.make ["a", "b"] .leastConnections)
            ((LoadBalancer.make ["a", "b"] .leastConnections).targets.getD j "")) ∧
      lookupCount
        (incrCount (LoadBalancer.make ["a", "b"] .leastConnections).connectionCounts t) t =
        some (cntOf (LoadBalancer.make ["a", "b"] .leastConnections) t + 1) ∧
      (∀ s, s ≠ t →
        lookupCount
          (incrCount (LoadBalancer.make ["a", "b"] .leastConnections).connectionCounts t) s =
          lookupCount (LoadBalancer.make ["a", "b"] .leastConnections).connectionCounts s) :=
  least_connections_selects_min (LoadBalancer.make ["a", "b"] .leastConnections) 0
    rfl (by decide) (by decide)

/-! ### Load-balancer invariant theorems -/

/-- Object assignment adds the key to the key set. -/
theorem setCount_keys_mem (cc : List (String × Nat)) (k : String) (v : Nat) :
    ∀ s, s ∈ countsKeys (setCount cc k v) ↔ s = k ∨ s ∈ countsKeys cc := by
  induction cc with
  | nil => intro s; simp [setCount, countsKeys]
  | cons p rest ih =>
    intro s
    by_cases hp : p.1 = k
    · simp only [setCount, if_pos hp, countsKeys, List.map_cons, List.mem_cons]
      rw [hp]
      tauto
    · simp only [setCount, if_neg hp, countsKeys, List.map_cons, List.mem_cons]
      have := ih s
      simp only [countsKeys] at this
      rw [this]
      tauto

/-- Object assignment keeps the key list duplicate-free. -/
theorem setCount_keys_nodup (cc : List (String × Nat)) (k : String) (v : Nat)
    (h : (countsKeys cc).Nodup) : (countsKeys (setCount cc k v)).Nodup := by
  induction cc with
  | nil => simp [setCount, countsKeys]
  | cons p rest ih =>
    simp only [countsKeys, List.map_cons, List.nodup_cons] at h
    by_cases hp : p.1 = k
    · simp only [setCount, if_pos hp, countsKeys, List.map_cons, List.nodup_cons]
      exact ⟨hp ▸ h.1, h.2⟩
    · simp only [setCount, if_neg hp, countsKeys, List.map_cons, List.nodup_cons]
      refine ⟨?_, ih h.2⟩
      intro hmem
      rcases (setCount_keys_mem rest k v p.1).mp hmem with h2 | h2
      · exact hp h2
      · exact h.1 h2

/-- Incrementing a present key leaves the key list unchanged. -/
theorem incrCount_keys_of_mem (cc : List (String × Nat)) (k : String)
    (h : k ∈ countsKeys cc) : countsKeys (incrCount cc k) = countsKeys cc := by
  induction cc with
  | nil => simp [countsKeys] at h
  | cons p rest ih =>
    by_cases hp : p.1 = k
    · simp [incrCount, hp, countsKeys]
    · have h2 : k ∈ countsKeys rest := by
        simp only [countsKeys, List.map_cons, List.mem_cons] at h
        rcases h with h | h
        · exact absurd h.symm hp
        · exact h
      have h5 := ih h2
      simp only [countsKeys] at h5
      simp [incrCount, hp, countsKeys, h5]

/-- Deleting a key removes exactly that key from the key set. -/
theorem deleteCount_keys_mem (cc : List (String × Nat)) (k : String) :
    ∀ s, s ∈ countsKeys (deleteCount cc k) ↔ s ∈ countsKeys cc ∧ s ≠ k := by
  intro s
  simp only [deleteCount, countsKeys, List.mem_map]
  constructor
  · rintro ⟨p, hp, hps⟩
    have hmem := List.mem_filter.mp hp
    have hne : p.1 ≠ k := by simpa using hmem.2
    exact ⟨⟨p, hmem.1, hps⟩, hps ▸ hne⟩
  · rintro ⟨⟨p, hp, hps⟩, hsk⟩
    exact ⟨p, List.mem_filter.mpr ⟨hp, by simpa using hps ▸ hsk⟩, hps⟩

/-- Deleting a key keeps the key list duplicate-free. -/
theorem deleteCount_keys_nodup (cc : List (String × Nat)) (k : String)
    (h : (countsKeys cc).Nodup) : (countsKeys (deleteCount cc k)).Nodup :=
  ((List.filter_sublist cc).map Prod.fst).nodup h

/-- Key set of the constructor fold: the accumulator keys plus the folded
targets. -/
theorem foldl_setCount_mem (ts : List String) : ∀ (acc : List (String × Nat)) (s : String),
    s ∈ countsKeys (ts.foldl (fun a t => setCount a t 0) acc) ↔
      s ∈ countsKeys acc ∨ s ∈ ts := by
  induction ts with
  | nil => intro acc s; simp
  | cons x xs ih =>
    intro acc s
    rw [List.foldl_cons, ih (setCount acc x 0) s, setCount_keys_mem]
    simp only [List.mem_cons]
    tauto

/-- The constructor fold keeps keys duplicate-free. -/
theorem foldl_setCount_nodup (ts : List String) : ∀ acc,
    (countsKeys acc).Nodup →
      (countsKeys (ts.foldl (fun a t => setCount a t 0) acc)).Nodup := by
  induction ts with
  | nil => intro acc h; exact h
  | cons x xs ih =>
    intro acc h
    rw [List.foldl_cons]
    exact ih _ (setCount_keys_nodup acc x 0 h)

/-- A fold whose step keeps either the accumulator or the current element
stays inside the accumulator and the list. -/
theorem fold_select_mem (f : String → String → String)
    (hf : ∀ acc curr, f acc curr = acc ∨ f acc curr = curr) :
    ∀ (ls : List String) (m : String), ls.foldl f m = m ∨ ls.foldl f m ∈ ls := by
  intro ls
  induction ls with
  | nil => intro m; left; rfl
  | cons x xs ih =>
    intro m
    rw [List.foldl_cons]
    rcases ih (f m x) with h | h
    · rw [h]
      rcases hf m x with h2 | h2
      · left; exact h2
      · right; rw [h2]; exact List.mem_cons_self x xs
    · right; exact List.mem_cons_of_mem x h

/-- A freshly constructed load balancer on a duplicate-free target list is
well-formed. -/
theorem make_wf (targets : List String) (strat : Strategy) (hnd : targets.Nodup) :
    LbWellFormed (LoadBalancer.make targets strat) := by
  refine ⟨hnd, ?_, ?_, ?_⟩
  · exact foldl_setCount_nodup targets [] (by simp [countsKeys])
  · intro t
    show t ∈ countsKeys (targets.foldl (fun a x => setCount a x 0) []) ↔ t ∈ targets
    rw [foldl_setCount_mem]
    simp [countsKeys]
  · cases targets with
    | nil => left; exact ⟨rfl, rfl⟩
    | cons x xs => right; simp [LoadBalancer.make]

/-- addTarget preserves well-formedness. -/
theorem addTarget_wf (lb : LoadBalancer) (t : String) (h : LbWellFormed lb) :
    LbWellFormed (lb.addTarget t) := by
  obtain ⟨h1, h2, h3, h4⟩ := h
  rw [LoadBalancer.addTarget]
  by_cases hmem : t ∈ lb.targets
  · rw [if_pos hmem]; exact ⟨h1, h2, h3, h4⟩
  · rw [if_neg hmem]
    refine ⟨?_, setCount_keys_nodup _ t 0 h2, ?_, ?_⟩
    · simp [List.nodup_append, h1, hmem]
    · intro s
      show s ∈ countsKeys (setCount lb.connectionCounts t 0) ↔ s ∈ lb.targets ++ [t]
      rw [setCount_keys_mem, h3 s]
      simp only [List.mem_append, List.mem_singleton]
      tauto
    · rcases h4 with ⟨hemp, hci⟩ | hlt
      · right
        show lb.currentIndex < (lb.targets ++ [t]).length
        simp [hemp, hci]
      · right
        show lb.currentIndex < (lb.targets ++ [t]).length
        simp only [List.length_append, List.length_singleton]
        omega

/-- removeTarget preserves well-formedness. -/
theorem removeTarget_wf (lb : LoadBalancer) (t : String) (h : LbWellFormed lb) :
    LbWellFormed (lb.removeTarget t) := by
  obtain ⟨h1, h2, h3, h4⟩ := h
  rw [LoadBalancer.removeTarget]
  by_cases hmem : t ∈ lb.targets
  · rw [if_pos hmem]
    refine ⟨h1.erase t, deleteCount_keys_nodup _ t h2, ?_, ?_⟩
    · intro s
      show s ∈ countsKeys (deleteCount lb.connectionCounts t) ↔ s ∈ lb.targets.erase t
      rw [deleteCount_keys_mem, h3 s, List.Nodup.mem_erase_iff h1]
      tauto
    · show ((lb.targets.erase t) = [] ∧
          (if lb.currentIndex ≥ (lb.targets.erase t).length then 0 else lb.currentIndex) = 0) ∨
        (if lb.currentIndex ≥ (lb.targets.erase t).length then 0 else lb.currentIndex) <
          (lb.targets.erase t).length
      by_cases hge : lb.currentIndex ≥ (lb.targets.erase t).length
      · rw [if_pos hge]
        cases hnil : lb.targets.erase t with
        | nil => left; exact ⟨rfl, rfl⟩
        | cons y ys => right; simp
      · rw [if_neg hge]
        right
        omega
  · rw [if_neg hmem]; exact ⟨h1, h2, h3, h4⟩

/-- getNextTarget preserves well-formedness of the returned state. -/
theorem getNextTarget_wf (lb : LoadBalancer) (rnd : Nat) (h : LbWellFormed lb) :
    ∀ pr, lb.getNextTarget rnd = .ok pr → LbWellFormed pr.2 := by
  intro pr hpr
  obtain ⟨h1, h2, h3, h4⟩ := h
  by_cases hz : lb.targets.length = 0
  · simp only [LoadBalancer.getNextTarget] at hpr
    rw [if_pos hz] at hpr
    exact absurd hpr (by simp)
  by_cases hone : lb.targets.length = 1
  · simp only [LoadBalancer.getNextTarget] at hpr
    rw [if_neg hz, if_pos hone] at hpr
    simp only [Except.ok.injEq] at hpr
    rw [← hpr]
    exact ⟨h1, h2, h3, h4⟩
  · simp only [LoadBalancer.getNextTarget] at hpr
    rw [if_neg hz, if_neg hone] at hpr
    cases hs : lb.strategy with
    | random =>
      rw [hs] at hpr
      simp only [Except.ok.injEq] at hpr
      rw [← hpr]
      exact ⟨h1, h2, h3, h4⟩
    | roundRobin =>
      rw [hs] at hpr
      simp only [Except.ok.injEq] at hpr
      rw [← hpr]
      refine ⟨h1, h2, h3, ?_⟩
      right
      show (lb.currentIndex + 1) % lb.targets.length < lb.targets.length
      exact Nat.mod_lt _ (by omega)
    | leastConnections =>
      rw [hs] at hpr
      simp only [Except.ok.injEq] at hpr
      rw [← hpr]
      have hnil : lb.targets ≠ [] := by
        intro hh
        rw [hh] at hz
        exact hz rfl
      have hselmem : (lb.targets.foldl
          (fun acc curr =>
            if jsLt (lookupCount lb.connectionCounts curr) (lookupCount lb.connectionCounts acc)
            then curr else acc) (lb.targets.headD "")) ∈ lb.targets := by
        rcases fold_select_mem
          (fun acc curr =>
            if jsLt (lookupCount lb.connectionCounts curr)
                (lookupCount lb.connectionCounts acc)
            then curr else acc)
          (fun acc curr => by
            show (if jsLt (lookupCount lb.connectionCounts curr)
                  (lookupCount lb.connectionCounts acc) then curr else acc) = acc ∨
              (if jsLt (lookupCount lb.connectionCounts curr)
                  (lookupCount lb.connectionCounts acc) then curr else acc) = curr
            by_cases hc : jsLt (lookupCount lb.connectionCounts curr)
                (lookupCount lb.connectionCounts acc) = true
            · right; rw [if_pos hc]
            · left; rw [if_neg hc])
          lb.targets (lb.targets.headD "") with hh | hh
        · rw [hh]; exact headD_mem_of_ne_nil lb.targets hnil
        · exact hh
      have hkeys := incrCount_keys_of_mem lb.connectionCounts _ ((h3 _).mpr hselmem)
      refine ⟨h1, ?_, ?_, h4⟩
      · show (countsKeys (incrCount lb.connectionCounts _)).Nodup
        rw [hkeys]
        exact h2
      · intro s
        show s ∈ countsKeys (incrCount lb.connectionCounts _) ↔ s ∈ lb.targets
        rw [hkeys]
        exact h3 s

/-- Every load-balancer operation preserves well-formedness. -/
theorem applyOp_wf (lb : LoadBalancer) (op : LbOp) (h : LbWellFormed lb) :
    LbWellFormed (applyOp lb op) := by
  cases op with
  | add t => exact addTarget_wf lb t h
  | remove t => exact removeTarget_wf lb t h
  | next rnd =>
    simp only [applyOp]
    cases hpr : lb.getNextTarget rnd with
    | error e => exact h
    | ok pr => exact getNextTarget_wf lb rnd h pr hpr

/-- Well-formedness is preserved across any operation sequence. -/
theorem applyOps_wf (ops : List LbOp) : ∀ lb : LoadBalancer,
    LbWellFormed lb → LbWellFormed (applyOps lb ops) := by
  induction ops with
  | nil => intro lb h; exact h
  | cons op ops ih =>
    intro lb h
    rw [applyOps, List.foldl_cons]
    exact ih (applyOp lb op) (applyOp_wf lb op h)

/-- C8 counterexample: for the claim as stated, a duplicated registration
target breaks the counter clause after one removeTarget (target a remains
listed but has no counter entry), and removing the last target leaves the
cursor 0, which is not a valid index into the now-empty target list. -/
theorem lb_invariant_fails_as_stated :
    ("a" ∈ ((LoadBalancer.make ["a", "a"] .roundRobin).removeTarget "a").targets ∧
      "a" ∉ countsKeys
        ((LoadBalancer.make ["a", "a"] .roundRobin).removeTarget "a").connectionCounts) ∧
    (((LoadBalancer.make ["a"] .roundRobin).removeTarget "a").targets = [] ∧
      ((LoadBalancer.make ["a"] .roundRobin).removeTarget "a").currentIndex = 0 ∧
      ¬ ((LoadBalancer.make ["a"] .roundRobin).removeTarget "a").currentIndex <
        ((LoadBalancer.make ["a"] .roundRobin).removeTarget "a").targets.length) := by
  decide

/-- C8 (amended): starting from a load balancer constructed on a
duplicate-free target list, after any sequence of addTarget, removeTarget and
getNextTarget operations the target list stays duplicate-free, the cursor is
a valid index whenever targets remain (and 0 once the list is empty), and the
connection-counter map has exactly one entry for each current target and no
others. -/
theorem lb_invariant_preserved (targets0 : List String) (strat : Strategy)
    (hnd : targets0.Nodup) (ops : List LbOp) :
    LbWellFormed (applyOps (LoadBalancer.make targets0 strat) ops) :=
  applyOps_wf ops (LoadBalancer.make targets0 strat) (make_wf targets0 strat hnd)

/-- Witness for lb_invariant_preserved on a mixed operation sequence. -/
theorem lb_invariant_preserved_witness :
    LbWellFormed (applyOps (LoadBalancer.make ["a", "b"] .roundRobin)
      [LbOp.remove "a", LbOp.next 0, LbOp.add "c"]) :=
  lb_invariant_preserved ["a", "b"] .roundRobin (by decide)
    [LbOp.remove "a", LbOp.next 0, LbOp.add "c"]
